import Mathlib

/-!
Verification of the sound_preview tool (tools/sound_preview/main.go).

The development shallowly embeds the tool's synthesis, encoding and
playback-dispatch core:

* floating-point values are modelled as real numbers; Go's `int(x)`
  conversion (truncation toward zero) is `trunc` below;
* `waveSample`, `envelope`, `synthesize` follow the Go source line by
  line, with the mixed buffer represented as a function `ℤ → ℝ` and the
  per-note inner loop (including its `break` on an out-of-range index)
  as the structural recursion `mixLoop`;
* `writeWAV` is modelled as the byte list the Go code assembles in its
  in-memory buffer before persisting it;
* `runFirstAvailable` is modelled over an abstract host environment:
  a predicate saying which program names exist (`exec.LookPath`
  succeeding) and a function giving each invocation's outcome
  (`none` = the player exited successfully);
* `playSamples` is modelled by the outcome of its three effects
  (write, play, deferred remove) and what it returns.
-/

namespace SoundPreview

/-- Truncation toward zero, the semantics of Go's `int(x)` conversion on
a finite floating value. -/
noncomputable def trunc (x : ℝ) : ℤ :=
  if 0 ≤ x then ⌊x⌋ else ⌈x⌉

/-- A synthesized note, mirroring `type note struct` in main.go. -/
structure Note where
  freqHz : ℝ
  startS : ℝ
  durS : ℝ
  amp : ℝ
  wave : String

/-- Oscillator, mirroring `waveSample` in main.go: a `switch` on the
waveform kind string with `sine` as the default branch. -/
noncomputable def waveSample (kind : String) (phase : ℝ) : ℝ :=
  if kind = "square" then
    (if 0 ≤ Real.sin phase then 1 else -1)
  else if kind = "glass" then
    0.70 * Real.sin phase + 0.22 * Real.sin (2.0 * phase) + 0.08 * Real.sin (3.0 * phase)
  else if kind = "round" then
    0.84 * Real.sin phase + 0.10 * Real.sin (0.5 * phase) + 0.06 * Real.sin (1.5 * phase)
  else
    Real.sin phase

/-- Envelope shaper, mirroring `envelope` in main.go (attack constant
0.003 s, decay floor 1e-6 on the denominator). -/
noncomputable def envelope (t durS : ℝ) : ℝ :=
  if t < 0 ∨ durS < t then 0
  else if t < 0.003 then max 0 (t / 0.003)
  else max 0 (Real.exp (-6.9 * ((t - 0.003) / max 0.000001 (durS - 0.003))))

/-- Latest note end time, mirroring the `endS` accumulation loop in
`synthesize` (initial value 0, updated whenever `start+dur` exceeds it). -/
noncomputable def endS (notes : List Note) : ℝ :=
  notes.foldl (fun acc n => max acc (n.startS + n.durS)) 0

/-- Frame count of the render buffer: `int((endS + 0.05) * sampleRate)`
in main.go, with `sampleRate = 44100`. -/
noncomputable def frameCount (notes : List Note) : ℤ :=
  trunc ((endS notes + 0.05) * 44100)

/-- Inner per-note mixing loop of `synthesize`. `rem` is the number of
loop iterations left (`nFrames - j` in the Go loop), `j` the current
sample offset. An index outside `[0, fc)` hits the `break`, abandoning
the rest of this note's contribution. -/
noncomputable def mixLoop (fc : ℤ) (n : Note) (startI : ℤ) :
    ℕ → ℕ → (ℤ → ℝ) → (ℤ → ℝ)
  | 0, _, buf => buf
  | rem + 1, j, buf =>
    let idx := startI + (j : ℤ)
    if idx < 0 ∨ fc ≤ idx then buf
    else
      let t := (j : ℝ) / 44100
      let v := waveSample n.wave (2.0 * Real.pi * n.freqHz * t) * envelope t n.durS
      mixLoop fc n startI rem (j + 1)
        (fun i => if i = idx then buf i + n.amp * v else buf i)

/-- One note's additive contribution to the buffer: the Go loop
`for j := 0; j < nFrames; j++` with `startI := int(startS*sampleRate)`
and `nFrames := int(durS*sampleRate)`. -/
noncomputable def mixNote (fc : ℤ) (buf : ℤ → ℝ) (n : Note) : ℤ → ℝ :=
  mixLoop fc n (trunc (n.startS * 44100)) (trunc (n.durS * 44100)).toNat 0 buf

/-- The fully mixed floating buffer of `synthesize`, all notes added
into an initially zero buffer. -/
noncomputable def mixAll (notes : List Note) : ℤ → ℝ :=
  notes.foldl (mixNote (frameCount notes)) (fun _ => 0)

/-- Peak absolute value over the first `k` samples of a buffer,
mirroring the peak-scan loop in `synthesize`. -/
noncomputable def peak (k : ℕ) (buf : ℤ → ℝ) : ℝ :=
  (List.range k).foldl (fun p i => max p |buf (i : ℤ)|) 0

/-- Normalization factor of `synthesize`: `0.95/peak` when the peak
exceeds 0.95, otherwise 1. -/
noncomputable def scaleOf (k : ℕ) (buf : ℤ → ℝ) : ℝ :=
  if 0.95 < peak k buf then 0.95 / peak k buf else 1

/-- Clamp to `[-1, 1]`, mirroring the two `if` statements in the
quantization loop of `synthesize`. -/
noncomputable def clamp (s : ℝ) : ℝ :=
  if 1 < s then 1 else if s < -1 then -1 else s

/-- Quantization of one scaled sample: `int16(s * 32767.0)` after the
clamp (Go's conversion truncates toward zero). -/
noncomputable def quant (s : ℝ) : ℤ :=
  trunc (clamp s * 32767)

/-- The quantized output buffer of `synthesize` on the non-error path. -/
noncomputable def synthCore (notes : List Note) : List ℤ :=
  (List.range (frameCount notes).toNat).map
    (fun i : ℕ =>
      quant (mixAll notes (i : ℤ) * scaleOf (frameCount notes).toNat (mixAll notes)))

/-- `synthesize` from main.go: errors on an empty note list, otherwise
returns the quantized buffer. -/
noncomputable def synthesize (notes : List Note) : Except String (List ℤ) :=
  match notes with
  | [] => .error "no notes supplied"
  | _ => .ok (synthCore notes)

/-- ASCII bytes of a header tag string. -/
def ascii (s : String) : List ℕ :=
  s.data.map (fun c => c.toNat)

/-- Little-endian bytes of a 16-bit unsigned value. -/
def u16le (n : ℕ) : List ℕ :=
  [n % 256, n / 256 % 256]

/-- Little-endian bytes of a 32-bit unsigned value. -/
def u32le (n : ℕ) : List ℕ :=
  [n % 256, n / 256 % 256, n / 65536 % 256, n / 16777216 % 256]

/-- Little-endian two's-complement bytes of one signed 16-bit sample,
as `binary.Write(&b, binary.LittleEndian, s)` emits it. -/
def i16le (s : ℤ) : List ℕ :=
  u16le (s.emod 65536).toNat

/-- Byte stream assembled by `writeWAV` in main.go before it is handed
to `os.WriteFile`, with the source's intermediate constants
(`byteRate`, `blockAlign`, `dataSize`, `riffChunkSize`) inlined as the
source computes them. -/
def writeWAV (samples : List ℤ) : List ℕ :=
  let channels : ℕ := 1
  let bitsPerSample : ℕ := 16
  let byteRate : ℕ := 44100 * channels * (bitsPerSample / 8)
  let blockAlign : ℕ := channels * (bitsPerSample / 8)
  let dataSize : ℕ := samples.length * 2
  let riffChunkSize : ℕ := 36 + dataSize
  ascii "RIFF" ++ u32le riffChunkSize ++ ascii "WAVE" ++
    ascii "fmt " ++ u32le 16 ++ u16le 1 ++ u16le channels ++
    u32le 44100 ++ u32le byteRate ++ u16le blockAlign ++ u16le bitsPerSample ++
    ascii "data" ++ u32le dataSize ++ samples.flatMap i16le

/-- A player candidate, mirroring `type playerCmd struct`. -/
structure PlayerCmd where
  name : String
  args : List String
  deriving DecidableEq

/-- Failure outcomes of the playback fallback chain, as the two
`fmt.Errorf` results of `runFirstAvailable`: either no candidate
program exists (carrying every candidate name), or some existed and
all attempts failed (carrying the attempted names and the last
underlying failure). -/
inductive PlayErr where
  | playerNotFound : List String → PlayErr
  | playbackFailed : List String → Option String → PlayErr
  deriving DecidableEq

/-- Loop of `runFirstAvailable`: `hostHas` says whether a program name
exists on the host (`exec.LookPath` succeeding), `runCmd` gives each
invocation's outcome (`none` = exited successfully). Returns `none` on
the early `return nil`, otherwise the accumulated `available` list and
`lastErr`. -/
def runFirstAvailableAux (hostHas : String → Bool) (runCmd : PlayerCmd → Option String) :
    List PlayerCmd → List String → Option String → Option (List String × Option String)
  | [], avail, lastErr => some (avail, lastErr)
  | c :: rest, avail, lastErr =>
    if hostHas c.name then
      match runCmd c with
      | none => none
      | some e => runFirstAvailableAux hostHas runCmd rest (avail ++ [c.name]) (some e)
    else
      runFirstAvailableAux hostHas runCmd rest avail lastErr

/-- `runFirstAvailable` from main.go: `none` = success; otherwise the
post-loop classification into the two failure kinds. -/
def runFirstAvailable (hostHas : String → Bool) (runCmd : PlayerCmd → Option String)
    (candidates : List PlayerCmd) : Option PlayErr :=
  match runFirstAvailableAux hostHas runCmd candidates [] none with
  | none => none
  | some (avail, lastErr) =>
    if avail.isEmpty then
      some (.playerNotFound (candidates.map (fun c => c.name)))
    else
      some (.playbackFailed avail lastErr)

/-- Outcomes of the three effects `playSamples` performs: writing the
temporary WAV file, the playback attempt, and the deferred
`os.Remove` (whose result the source discards with `_ =`). `none`
means the effect succeeded. -/
structure PlayEnv where
  writeErr : Option String
  playErr : Option String
  removeErr : Option String

/-- `playSamples` from main.go, modelled by what it returns and whether
the deferred removal of the temporary file runs: a write failure
returns early before the `defer` is installed; afterwards the removal
is attempted on every exit path and the playback result is returned
unchanged. -/
def playSamples (env : PlayEnv) : Option String × Bool :=
  match env.writeErr with
  | some e => (some e, false)
  | none => (env.playErr, true)

/-- When every candidate whose program exists fails, the dispatch loop
runs to completion, accumulating exactly the existing candidates' names
and ending with the last attempted invocation's error. -/
lemma runAux_allFail (hostHas : String → Bool) (runCmd : PlayerCmd → Option String)
    (cs : List PlayerCmd) :
    ∀ (avail : List String) (le : Option String),
      (∀ c ∈ cs, hostHas c.name = true → (runCmd c).isSome) →
      runFirstAvailableAux hostHas runCmd cs avail le =
        some (avail ++ (cs.filter (fun c => hostHas c.name)).map (fun c => c.name),
              (cs.filter (fun c => hostHas c.name)).foldl (fun _ c => runCmd c) le) := by
  induction cs with
  | nil => intro avail le _; simp [runFirstAvailableAux]
  | cons c rest ih =>
    intro avail le hall
    by_cases hex : hostHas c.name = true
    · obtain ⟨e, he⟩ := Option.isSome_iff_exists.mp (hall c (List.mem_cons_self c rest) hex)
      simp only [runFirstAvailableAux, hex, if_true, he]
      rw [ih (avail ++ [c.name]) (some e) (fun d hd hx => hall d (List.mem_cons_of_mem c hd) hx)]
      simp [List.filter_cons_of_pos, hex, he]
    · have hex2 : hostHas c.name = false := by
        cases h : hostHas c.name
        · rfl
        · exact absurd h hex
      simp only [runFirstAvailableAux, hex2, Bool.false_eq_true, if_false]
      rw [ih avail le (fun d hd hx => hall d (List.mem_cons_of_mem c hd) hx)]
      simp [List.filter_cons_of_neg, hex2]

/-- Folding the per-candidate outcome function over a non-empty list
yields the outcome of the list's last element. -/
lemma foldl_lastRun (runCmd : PlayerCmd → Option String) (d : PlayerCmd) :
    ∀ (l : List PlayerCmd) (le : Option String), l ≠ [] →
      l.foldl (fun _ c => runCmd c) le = runCmd (l.getLastD d) := by
  intro l
  induction l with
  | nil => intro le h; exact absurd rfl h
  | cons a t ih =>
    intro le _
    cases t with
    | nil => simp [List.getLastD]
    | cons b t2 =>
      rw [List.foldl_cons, ih (runCmd a) (List.cons_ne_nil b t2)]
      rw [List.getLastD_cons, List.getLastD_cons, List.getLastD_cons]

end SoundPreview

namespace SoundPreview

/-- C3: `writeWAV` serializes `n` samples into exactly the canonical
RIFF/WAVE byte sequence — "RIFF", LE32 `36 + 2n`, "WAVE", "fmt ",
LE32 16, LE16 format tag 1, LE16 channels 1, LE32 rate 44100,
LE32 byte rate 88200, LE16 block align 2, LE16 bits 16, "data",
LE32 `2n`, then the samples as little-endian int16; encoding `[0, 16384]`
gives a 48-byte stream with RIFF size field 40 and data size field 4. -/
theorem writeWAV_layout (samples : List ℤ) :
    writeWAV samples =
      ascii "RIFF" ++ u32le (36 + 2 * samples.length) ++ ascii "WAVE" ++
        ascii "fmt " ++ u32le 16 ++ u16le 1 ++ u16le 1 ++
        u32le 44100 ++ u32le 88200 ++ u16le 2 ++ u16le 16 ++
        ascii "data" ++ u32le (2 * samples.length) ++ samples.flatMap i16le ∧
    (writeWAV [0, 16384]).length = 48 ∧
    ((writeWAV [0, 16384]).drop 4).take 4 = u32le 40 ∧
    ((writeWAV [0, 16384]).drop 40).take 4 = u32le 4 := by
  refine ⟨?_, ?_, ?_, ?_⟩
  · simp [writeWAV, Nat.mul_comm]
  · decide
  · decide
  · decide

/-- C5: `synthesize` fails with the "no notes supplied" error exactly on
the empty note list, and returns the quantized buffer with no error on
every non-empty note list. -/
theorem synthesize_empty_iff (notes : List Note) :
    (notes = [] → synthesize notes = .error "no notes supplied") ∧
    (notes ≠ [] → synthesize notes = .ok (synthCore notes)) := by
  cases notes with
  | nil => exact ⟨fun _ => rfl, fun h => absurd rfl h⟩
  | cons n l => exact ⟨fun h => List.noConfusion h, fun _ => rfl⟩

/-- Witness for C5 at the empty list and at a concrete one-note list. -/
theorem synthesize_empty_iff_witness :
    synthesize [] = .error "no notes supplied" ∧
    synthesize [⟨440, 0, 0.2, 0.32, "sine"⟩] =
      .ok (synthCore [⟨440, 0, 0.2, 0.32, "sine"⟩]) :=
  ⟨(synthesize_empty_iff []).1 rfl,
   (synthesize_empty_iff [⟨440, 0, 0.2, 0.32, "sine"⟩]).2
     (List.cons_ne_nil _ _)⟩

/-- C8: once the temporary WAV file is written successfully, the
deferred removal is attempted on every exit path of `playSamples`, the
playback outcome is returned unchanged, and the removal's own outcome
never influences the returned value. -/
theorem playSamples_cleanup (env : PlayEnv) (h : env.writeErr = none) :
    (playSamples env).2 = true ∧ (playSamples env).1 = env.playErr ∧
    ∀ r, playSamples { env with removeErr := r } = playSamples env :=
  ⟨by simp [playSamples, h], by simp [playSamples, h],
   fun r => by simp [playSamples, h]⟩

/-- Witness for C8 at a concrete environment where the write succeeds,
playback fails and the deferred removal itself fails. -/
theorem playSamples_cleanup_witness :
    (playSamples ⟨none, some "playback failed", some "remove failed"⟩).2 = true ∧
    (playSamples ⟨none, some "playback failed", some "remove failed"⟩).1 =
      (⟨none, some "playback failed", some "remove failed"⟩ : PlayEnv).playErr ∧
    playSamples { (⟨none, some "playback failed", some "remove failed"⟩ : PlayEnv) with
        removeErr := none } =
      playSamples ⟨none, some "playback failed", some "remove failed"⟩ :=
  ⟨(playSamples_cleanup ⟨none, some "playback failed", some "remove failed"⟩ rfl).1,
   (playSamples_cleanup ⟨none, some "playback failed", some "remove failed"⟩ rfl).2.1,
   (playSamples_cleanup ⟨none, some "playback failed", some "remove failed"⟩ rfl).2.2 none⟩

/-- C4: the fallback chain returns the "no player found" failure naming
every candidate when no candidate program exists on the host; and when
some candidate exists but every existing candidate's invocation fails,
it returns the "playback failed" failure naming exactly the existing
(attempted) candidates and carrying the last attempted invocation's
underlying failure. -/
theorem runFirstAvailable_failures (hostHas : String → Bool)
    (runCmd : PlayerCmd → Option String) (cs : List PlayerCmd) :
    ((∀ c ∈ cs, hostHas c.name = false) →
      runFirstAvailable hostHas runCmd cs =
        some (.playerNotFound (cs.map (fun c => c.name)))) ∧
    (∀ c₀, c₀ ∈ cs → hostHas c₀.name = true →
      (∀ c ∈ cs, hostHas c.name = true → (runCmd c).isSome) →
      runFirstAvailable hostHas runCmd cs =
        some (.playbackFailed
          ((cs.filter (fun c => hostHas c.name)).map (fun c => c.name))
          (runCmd ((cs.filter (fun c => hostHas c.name)).getLastD c₀)))) := by
  constructor
  · intro hnone
    have hall : ∀ c ∈ cs, hostHas c.name = true → (runCmd c).isSome := by
      intro c hc hx
      rw [hnone c hc] at hx
      cases hx
    have hfil : cs.filter (fun c => hostHas c.name) = [] := by
      rw [List.filter_eq_nil_iff]
      intro c hc
      simp [hnone c hc]
    rw [runFirstAvailable, runAux_allFail hostHas runCmd cs [] none hall, hfil]
    simp
  · intro c₀ hc₀ hx₀ hall
    have hmem : c₀ ∈ cs.filter (fun c => hostHas c.name) :=
      List.mem_filter.mpr ⟨hc₀, by simp [hx₀]⟩
    have hfil : cs.filter (fun c => hostHas c.name) ≠ [] :=
      List.ne_nil_of_mem hmem
    rw [runFirstAvailable, runAux_allFail hostHas runCmd cs [] none hall]
    rw [foldl_lastRun runCmd c₀ _ none hfil]
    have hne : ((cs.filter (fun c => hostHas c.name)).map (fun c => c.name)).isEmpty = false := by
      cases hval : cs.filter (fun c => hostHas c.name) with
      | nil => exact absurd hval hfil
      | cons a t => simp
    simp [hne]

/-- Witness for C4: a two-candidate chain on a host with no players at
all, and the same chain on a host where both exist and both fail. -/
theorem runFirstAvailable_failures_witness :
    runFirstAvailable (fun _ => false) (fun _ => none)
        [⟨"aplay", ["-q"]⟩, ⟨"paplay", []⟩] =
      some (.playerNotFound ["aplay", "paplay"]) ∧
    runFirstAvailable (fun _ => true) (fun _ => some "exit status 1")
        [⟨"aplay", ["-q"]⟩, ⟨"paplay", []⟩] =
      some (.playbackFailed ["aplay", "paplay"] (some "exit status 1")) := by
  constructor
  · exact (runFirstAvailable_failures (fun _ => false) (fun _ => none)
      [⟨"aplay", ["-q"]⟩, ⟨"paplay", []⟩]).1 (by decide)
  · have h := (runFirstAvailable_failures (fun _ => true) (fun _ => some "exit status 1")
      [⟨"aplay", ["-q"]⟩, ⟨"paplay", []⟩]).2 ⟨"aplay", ["-q"]⟩ (by decide) (by decide)
      (by decide)
    simpa using h

/-- Accumulating a running maximum never goes below its initial value. -/
lemma le_foldl_max (g : Note → ℝ) (l : List Note) :
    ∀ init : ℝ, init ≤ l.foldl (fun acc n => max acc (g n)) init := by
  induction l with
  | nil => intro init; exact le_refl _
  | cons n t ih => intro init; exact le_trans (le_max_left _ _) (ih _)

/-- The latest-end accumulator of `synthesize` is nonnegative. -/
lemma endS_nonneg (notes : List Note) : 0 ≤ endS notes :=
  le_foldl_max (fun n => n.startS + n.durS) notes 0

/-- Because the padded end time is positive, Go's truncating `int`
conversion in `synthesize` is the floor. -/
lemma frameCount_eq_floor (notes : List Note) :
    frameCount notes = ⌊(endS notes + 0.05) * 44100⌋ := by
  have h : (0 : ℝ) ≤ (endS notes + 0.05) * 44100 := by
    have := endS_nonneg notes
    nlinarith
  rw [frameCount, trunc, if_pos h]

/-- The quantized buffer has one entry per frame. -/
lemma synthCore_length (notes : List Note) :
    (synthCore notes).length = (frameCount notes).toNat := by
  rw [synthCore, List.length_map, List.length_range]

/-- The latest-end accumulator only looks at each note's start and
duration. -/
lemma endS_congr (l1 l2 : List Note)
    (h : l1.map (fun n => (n.startS, n.durS)) = l2.map (fun n => (n.startS, n.durS))) :
    endS l1 = endS l2 := by
  rw [endS, endS]
  suffices haux : ∀ (l2 : List Note) (init : ℝ),
      l1.map (fun n => (n.startS, n.durS)) = l2.map (fun n => (n.startS, n.durS)) →
      l1.foldl (fun acc n => max acc (n.startS + n.durS)) init =
        l2.foldl (fun acc n => max acc (n.startS + n.durS)) init by
    exact haux l2 0 h
  clear h
  induction l1 with
  | nil =>
    intro l2 init h
    rw [List.eq_nil_of_map_eq_nil h.symm]
  | cons n t ih =>
    intro l2 init h
    cases l2 with
    | nil => exact absurd h (by simp)
    | cons m t2 =>
      simp only [List.map_cons, List.cons.injEq, Prod.mk.injEq] at h
      obtain ⟨⟨hs, hd⟩, ht⟩ := h
      simp only [List.foldl_cons, hs, hd]
      exact ih t2 (max init (m.startS + m.durS)) ht

/-- C1 (amended): for every non-empty note list the quantized buffer's
length is the TRUNCATION (floor, since the padded end time is positive)
of `(max over notes of (start+duration) + 0.05) × 44100` — not its
ceiling — and the length depends only on the notes' starts and
durations, not on amplitudes or waveform kinds. -/
theorem synthCore_length_floor (notes ns2 : List Note) (h : notes ≠ [])
    (hsd : notes.map (fun n => (n.startS, n.durS)) = ns2.map (fun n => (n.startS, n.durS))) :
    (synthCore notes).length = (⌊(endS notes + 0.05) * 44100⌋).toNat ∧
    (synthCore notes).length = (synthCore ns2).length := by
  constructor
  · rw [synthCore_length, frameCount_eq_floor]
  · rw [synthCore_length, synthCore_length, frameCount, frameCount,
      endS_congr notes ns2 hsd]

/-- Witness for C1 at a concrete one-note list (and its own
start/duration projection). -/
theorem synthCore_length_floor_witness :
    ([⟨440, 0, 0.2, 0.32, "sine"⟩] : List Note) ≠ [] ∧
    ((synthCore [⟨440, 0, 0.2, 0.32, "sine"⟩]).length =
      (⌊(endS [⟨440, 0, 0.2, 0.32, "sine"⟩] + 0.05) * 44100⌋).toNat ∧
    (synthCore [⟨440, 0, 0.2, 0.32, "sine"⟩]).length =
      (synthCore [⟨440, 0, 0.2, 0.32, "sine"⟩]).length) :=
  ⟨List.cons_ne_nil _ _,
   synthCore_length_floor [⟨440, 0, 0.2, 0.32, "sine"⟩] [⟨440, 0, 0.2, 0.32, "sine"⟩]
     (List.cons_ne_nil _ _) rfl⟩

/-- Counterexample to C1 as stated: for the single note with start 0 and
duration 0.0001 s the buffer has `⌊0.0501 × 44100⌋ = 2209` samples,
while the claimed ceiling formula gives 2210. -/
theorem synthCore_length_ceil_cex :
    (synthCore [⟨440, 0, 0.0001, 1, "sine"⟩]).length = 2209 ∧
    (⌈(endS [⟨440, 0, 0.0001, 1, "sine"⟩] + 0.05) * 44100⌉).toNat = 2210 ∧
    (synthCore [⟨440, 0, 0.0001, 1, "sine"⟩]).length ≠
      (⌈(endS [⟨440, 0, 0.0001, 1, "sine"⟩] + 0.05) * 44100⌉).toNat := by
  have he : endS [⟨440, 0, 0.0001, 1, "sine"⟩] = 0.0001 := by
    rw [endS]
    simp only [List.foldl_cons, List.foldl_nil]
    norm_num
  have hlen : (synthCore [⟨440, 0, 0.0001, 1, "sine"⟩]).length = 2209 := by
    rw [synthCore_length, frameCount_eq_floor, he]
    have hfloor : ⌊(0.0001 + 0.05 : ℝ) * 44100⌋ = 2209 := by
      rw [Int.floor_eq_iff]
      constructor <;> norm_num
    rw [hfloor]
    rfl
  have hceil : (⌈(endS [⟨440, 0, 0.0001, 1, "sine"⟩] + 0.05) * 44100⌉).toNat = 2210 := by
    rw [he]
    have : ⌈(0.0001 + 0.05 : ℝ) * 44100⌉ = 2210 := by
      rw [Int.ceil_eq_iff]
      constructor <;> norm_num
    rw [this]
    rfl
  exact ⟨hlen, hceil, by rw [hlen, hceil]; norm_num⟩

/-- The peak scan dominates its initial value and every scanned sample. -/
lemma peak_fold_bounds (buf : ℤ → ℝ) (l : List ℕ) :
    ∀ init : ℝ,
      init ≤ l.foldl (fun p i => max p |buf (i : ℤ)|) init ∧
      ∀ i ∈ l, |buf (i : ℤ)| ≤ l.foldl (fun p i => max p |buf (i : ℤ)|) init := by
  induction l with
  | nil => intro init; exact ⟨le_refl _, by simp⟩
  | cons a t ih =>
    intro init
    constructor
    · exact le_trans (le_max_left _ _) (ih _).1
    · intro i hi
      rcases List.mem_cons.mp hi with rfl | hmem
      · exact le_trans (le_max_right _ _) (ih (max init |buf (i : ℤ)|)).1
      · exact le_trans ((ih (max init |buf (a : ℤ)|)).2 i hmem) (le_refl _)

/-- The scanned peak is nonnegative. -/
lemma peak_nonneg (k : ℕ) (buf : ℤ → ℝ) : 0 ≤ peak k buf :=
  (peak_fold_bounds buf (List.range k) 0).1

/-- Every in-range sample is bounded by the scanned peak. -/
lemma abs_le_peak (k : ℕ) (buf : ℤ → ℝ) (i : ℕ) (h : i < k) :
    |buf (i : ℤ)| ≤ peak k buf :=
  (peak_fold_bounds buf (List.range k) 0).2 i (List.mem_range.mpr h)

/-- After normalization every in-range sample is within the 0.95
headroom: either the peak exceeded 0.95 and the buffer was scaled by
`0.95/peak`, or it was at most 0.95 already and the scale is 1. -/
lemma abs_scaled_le (k : ℕ) (buf : ℤ → ℝ) (i : ℕ) (h : i < k) :
    |buf (i : ℤ) * scaleOf k buf| ≤ 0.95 := by
  rw [scaleOf]
  split
  · rename_i hpk
    have hp : 0 < peak k buf := lt_trans (by norm_num) hpk
    rw [abs_mul, abs_of_nonneg (div_nonneg (by norm_num) hp.le)]
    calc |buf (i : ℤ)| * (0.95 / peak k buf)
        ≤ peak k buf * (0.95 / peak k buf) :=
          mul_le_mul_of_nonneg_right (abs_le_peak k buf i h)
            (div_nonneg (by norm_num) hp.le)
      _ = 0.95 := by field_simp
  · rename_i hpk
    rw [mul_one]
    exact le_trans (abs_le_peak k buf i h) (not_lt.mp hpk)

/-- The clamp stage lands in `[-1, 1]`. -/
lemma clamp_mem (s : ℝ) : -1 ≤ clamp s ∧ clamp s ≤ 1 := by
  rw [clamp]
  split
  · constructor <;> norm_num
  · split
    · constructor <;> norm_num
    · rename_i h1 h2
      exact ⟨not_lt.mp h2, not_lt.mp h1⟩

/-- A sample already inside the headroom passes the clamp unchanged. -/
lemma clamp_eq_of_headroom (s : ℝ) (h : |s| ≤ 0.95) : clamp s = s := by
  obtain ⟨hl, hr⟩ := abs_le.mp h
  rw [clamp, if_neg (by linarith), if_neg (by linarith)]

/-- Truncation toward zero never grows the magnitude. -/
lemma abs_trunc_le (x : ℝ) : |((trunc x : ℤ) : ℝ)| ≤ |x| := by
  rw [trunc]
  split
  · rename_i h
    rw [abs_of_nonneg (by exact_mod_cast Int.floor_nonneg.mpr h), abs_of_nonneg h]
    exact Int.floor_le x
  · rename_i h
    push_neg at h
    have hc : (⌈x⌉ : ℤ) ≤ 0 := Int.ceil_le.mpr (by exact_mod_cast h.le)
    rw [abs_of_nonpos (by exact_mod_cast hc), abs_of_nonpos h.le]
    exact neg_le_neg (Int.le_ceil x)

/-- Quantization of any real sample stays within `[-32767, 32767]`. -/
lemma abs_quant_le (s : ℝ) : |quant s| ≤ 32767 := by
  have hc : |clamp s| ≤ 1 := abs_le.mpr ⟨(clamp_mem s).1, (clamp_mem s).2⟩
  have h1 : |clamp s * 32767| ≤ 32767 := by
    rw [abs_mul, abs_of_nonneg (by norm_num : (0:ℝ) ≤ 32767)]
    nlinarith [abs_nonneg (clamp s)]
  have h2 : |((quant s : ℤ) : ℝ)| ≤ 32767 := le_trans (abs_trunc_le _) h1
  exact_mod_cast h2

/-- Quantization of a sample already inside the 0.95 headroom stays
within `round(0.95 × 32767) = 31129`. -/
lemma abs_quant_le_headroom (s : ℝ) (h : |s| ≤ 0.95) : |quant s| ≤ 31129 := by
  rw [quant, clamp_eq_of_headroom s h]
  have h1 : |s * 32767| ≤ 31128.65 := by
    rw [abs_mul, abs_of_nonneg (by norm_num : (0:ℝ) ≤ 32767)]
    nlinarith [abs_nonneg s]
  have h2 : |((trunc (s * 32767) : ℤ) : ℝ)| ≤ 31128.65 :=
    le_trans (abs_trunc_le _) h1
  have h3 : ((|trunc (s * 32767)| : ℤ) : ℝ) ≤ 31129 := by
    push_cast
    linarith
  exact_mod_cast h3

/-- In-range entries of the quantized buffer are the quantized, scaled
mixed samples. -/
lemma synthCore_getD (notes : List Note) (i : ℕ)
    (hi : i < (frameCount notes).toNat) :
    (synthCore notes).getD i 0 =
      quant (mixAll notes (i : ℤ) *
        scaleOf (frameCount notes).toNat (mixAll notes)) := by
  rw [synthCore, List.getD_eq_getElem?_getD, List.getElem?_map,
    List.getElem?_range hi]
  rfl

/-- Out-of-range reads of the quantized buffer default to 0. -/
lemma synthCore_getD_oob (notes : List Note) (i : ℕ)
    (hi : ¬ i < (frameCount notes).toNat) :
    (synthCore notes).getD i 0 = 0 := by
  rw [List.getD_eq_getElem?_getD, List.getElem?_eq_none]
  · rfl
  · rw [synthCore_length]
    omega

/-- C2: every sample of the quantized buffer has magnitude at most
`round(0.95 × 32767) = 31129`, and whenever the raw mixed buffer's peak
is at most 0.95 the normalization scale is exactly 1. -/
theorem synth_headroom (notes : List Note) (i : ℕ) (k : ℕ) (buf : ℤ → ℝ)
    (h : peak k buf ≤ 0.95) :
    |(synthCore notes).getD i 0| ≤ 31129 ∧ scaleOf k buf = 1 := by
  constructor
  · by_cases hi : i < (frameCount notes).toNat
    · rw [synthCore_getD notes i hi]
      exact abs_quant_le_headroom _
        (abs_scaled_le (frameCount notes).toNat (mixAll notes) i hi)
    · rw [synthCore_getD_oob notes i hi]
      norm_num
  · rw [scaleOf, if_neg (not_lt.mpr h)]

/-- Witness for C2 at the empty note list and the zero buffer. -/
theorem synth_headroom_witness :
    peak 0 (fun _ => (0 : ℝ)) ≤ 0.95 ∧
    (|(synthCore []).getD 0 0| ≤ 31129 ∧ scaleOf 0 (fun _ => (0 : ℝ)) = 1) := by
  have h : peak 0 (fun _ => (0 : ℝ)) ≤ 0.95 := by
    rw [peak]
    norm_num
  exact ⟨h, synth_headroom [] 0 0 (fun _ => (0 : ℝ)) h⟩

/-- C9: every quantized sample lies in `[-32767, 32767]`; the value
-32768, though representable in 16 bits, is never produced because each
sample is clamped to `[-1, 1]` before the multiply-and-truncate. -/
theorem synth_quant_range (notes : List Note) (i : ℕ) :
    -32767 ≤ (synthCore notes).getD i 0 ∧
    (synthCore notes).getD i 0 ≤ 32767 ∧
    (synthCore notes).getD i 0 ≠ -32768 := by
  have hq : |(synthCore notes).getD i 0| ≤ 32767 := by
    by_cases hi : i < (frameCount notes).toNat
    · rw [synthCore_getD notes i hi]
      exact abs_quant_le _
    · rw [synthCore_getD_oob notes i hi]
      norm_num
  obtain ⟨h1, h2⟩ := abs_le.mp hq
  exact ⟨h1, h2, by omega⟩

/-- C6: the envelope is 0 outside `[0, duration]`; inside, it is the
linear attack ramp `max 0 (t/0.003)` before 0.003 s and the exponential
decay `max 0 (exp (-6.9 · x))` with `x = (t-0.003)/max 1e-6 (d-0.003)`
afterwards; and the returned gain always lies in `[0, 1]`. -/
theorem envelope_piecewise (t d : ℝ) :
    ((t < 0 ∨ d < t) → envelope t d = 0) ∧
    (¬(t < 0 ∨ d < t) → t < 0.003 → envelope t d = max 0 (t / 0.003)) ∧
    (¬(t < 0 ∨ d < t) → ¬(t < 0.003) →
      envelope t d =
        max 0 (Real.exp (-6.9 * ((t - 0.003) / max 0.000001 (d - 0.003))))) ∧
    0 ≤ envelope t d ∧ envelope t d ≤ 1 := by
  refine ⟨?_, ?_, ?_, ?_, ?_⟩
  · intro h; simp [envelope, h]
  · intro h1 h2; simp [envelope, h1, h2]
  · intro h1 h2; simp [envelope, h1, h2]
  · rw [envelope]
    split
    · exact le_refl 0
    · split
      · exact le_max_left 0 _
      · exact le_max_left 0 _
  · rw [envelope]
    split
    · norm_num
    · rename_i h1
      split
      · rename_i h2
        refine max_le (by norm_num) (le_of_lt ?_)
        exact (div_lt_one (by norm_num)).mpr h2
      · rename_i h2
        refine max_le (by norm_num) ?_
        rw [Real.exp_le_one_iff]
        have hnum : 0 ≤ t - 0.003 := by
          have := not_lt.mp h2
          linarith
        have hden : (0 : ℝ) < max 0.000001 (d - 0.003) :=
          lt_of_lt_of_le (by norm_num) (le_max_left _ _)
        have hx : 0 ≤ (t - 0.003) / max 0.000001 (d - 0.003) :=
          div_nonneg hnum (le_of_lt hden)
        nlinarith

/-- Witness for C6 at `t = -1`, `d = 1`, which lies outside the note. -/
theorem envelope_piecewise_witness : envelope (-1) 1 = 0 :=
  (envelope_piecewise (-1) 1).1 (Or.inl (by norm_num))

/-- C7: the square oscillator returns exactly 1 when `sin phase ≥ 0` and
exactly -1 otherwise, and never any other value. -/
theorem waveSample_square (phase : ℝ) :
    (0 ≤ Real.sin phase → waveSample "square" phase = 1) ∧
    (Real.sin phase < 0 → waveSample "square" phase = -1) ∧
    (waveSample "square" phase = 1 ∨ waveSample "square" phase = -1) := by
  refine ⟨?_, ?_, ?_⟩
  · intro h; simp [waveSample, h]
  · intro h; simp [waveSample, not_le.mpr h]
  · by_cases h : 0 ≤ Real.sin phase
    · exact Or.inl (by simp [waveSample, h])
    · exact Or.inr (by simp [waveSample, h])

/-- Witness for C7 at phase 0, where the sine is nonnegative. -/
theorem waveSample_square_witness : 0 ≤ Real.sin 0 ∧ waveSample "square" 0 = 1 :=
  ⟨le_of_eq Real.sin_zero.symm,
   (waveSample_square 0).1 (le_of_eq Real.sin_zero.symm)⟩

/-- C10: in the per-note mixing loop, the first sample offset whose
absolute index falls outside `[0, frameCount)` abandons the note's
entire remaining contribution (the loop returns the buffer unchanged
from that point on); in particular a note whose integer start index is
negative contributes nothing at all. -/
theorem mixLoop_break (fc : ℤ) :
    (∀ (n : Note) (startI : ℤ) (rem j : ℕ) (buf : ℤ → ℝ),
      (startI + (j : ℤ) < 0 ∨ fc ≤ startI + (j : ℤ)) →
      mixLoop fc n startI rem j buf = buf) ∧
    (∀ (buf : ℤ → ℝ) (n : Note), trunc (n.startS * 44100) < 0 →
      mixNote fc buf n = buf) := by
  have hloop : ∀ (n : Note) (startI : ℤ) (rem j : ℕ) (buf : ℤ → ℝ),
      (startI + (j : ℤ) < 0 ∨ fc ≤ startI + (j : ℤ)) →
      mixLoop fc n startI rem j buf = buf := by
    intro n startI rem j buf h
    cases rem with
    | zero => rfl
    | succ r =>
      show (if startI + (j : ℤ) < 0 ∨ fc ≤ startI + (j : ℤ) then buf else _) = buf
      rw [if_pos h]
  refine ⟨hloop, ?_⟩
  intro buf n h
  unfold mixNote
  apply hloop
  left
  simpa using h

/-- Witness for C10: a note starting one second before time zero mixes
nothing into a concrete buffer. -/
theorem mixLoop_break_witness :
    trunc ((⟨440, -1, 0.2, 0.3, "sine"⟩ : Note).startS * 44100) < 0 ∧
    mixNote 2205 (fun _ => 0) ⟨440, -1, 0.2, 0.3, "sine"⟩ = (fun _ => 0) := by
  have h : trunc ((⟨440, -1, 0.2, 0.3, "sine"⟩ : Note).startS * 44100) < 0 := by
    show trunc ((-1 : ℝ) * 44100) < 0
    rw [show ((-1 : ℝ) * 44100) = ((-44100 : ℤ) : ℝ) by norm_num]
    rw [trunc, if_neg (by push_cast; norm_num), Int.ceil_intCast]
    norm_num
  exact ⟨h, (mixLoop_break 2205).2 (fun _ => 0) ⟨440, -1, 0.2, 0.3, "sine"⟩ h⟩

end SoundPreview
